import Mathlib

/-!
Shallow embedding of `arena.go` (package `arena`, github.com/alecthomas/arena):
a bump-pointer arena allocator with fixed-size chunks, a lock-free fast
allocation path, a lock-guarded expansion step (`resize`) and a `Reset`
operation, plus the typed helpers `New`, `Value`, `Append`/`growSlice` and
`String` built on the raw allocator.

The embedding is sequential: the Go mutex and the atomicity of the cursor
are invisible to a single thread, so `cursor.Add`, `CompareAndSwap` and the
lock collapse to ordinary state passing.  Go `int`/`int64` values are
modelled as `Int` (no claim here concerns 64-bit overflow), byte buffers as
`List Nat`, and a returned `unsafe.Pointer` as the pair of the owning
chunk's index in the chunk list and the byte offset inside that chunk.
Every Go `panic` (the two explicit ones in `resize`, the one in `Reset`,
and the runtime's slice-bounds / index panics) becomes an `Except.error`
carrying the corresponding `Fault`; the state mutations performed before a
panic are kept, exactly as they persist in Go when the panic is recovered.
-/

set_option maxHeartbeats 1000000

deriving instance DecidableEq for Except

namespace arena

/-- A pointer into the arena: the index of the owning chunk in the chunk
list, and the byte offset inside that chunk.  Stands for the
`unsafe.Pointer` values the Go allocator returns. -/
structure Ptr where
  chunk : Nat
  off : Int
deriving DecidableEq

/-- The faults the allocator can raise.  `objectTooLarge` and
`capacityExceeded` are the two `panic` calls in `resize`; `outOfRange` is
the Go runtime panic of the expression `&chunk[lo:hi][0]` (slice bounds out
of range, or index out of range when the slice is empty); `casRetry` marks
the `resize` branch where the compare-and-swap fails and Go re-enters
`alloc` — unreachable in this sequential embedding, where the cursor cannot
change between the fetch-and-add and the swap; `resetRace` is the `panic`
at the end of `Reset`. -/
inductive Fault where
  | objectTooLarge
  | capacityExceeded
  | outOfRange
  | casRetry
  | resetRace
deriving DecidableEq

/-- The `Arena` struct.  `chunkSize` and `limit` are the immutable
configuration; `cursor` is the atomic offset into the active chunk;
`chunkCursor` is the index of the active chunk in the accounting sense;
`current` is the position inside `chunks` of the buffer the Go field
`current` aliases; `chunks` holds the owned buffers, each a list of
bytes. -/
structure Arena where
  chunkSize : Int
  limit : Int
  cursor : Int
  chunkCursor : Int
  current : Nat
  chunks : List (List Nat)
deriving DecidableEq

/-- Go's `Create(chunkSize, options...)`: one zeroed chunk of `chunkSize` bytes,
which is both the current chunk and `chunks[0]`.  The only option,
`WithLimit(limit)`, stores `limit`; calling `Create` without options leaves
`limit` at Go's zero value, so `Create cs 0` is Go's `Create(cs)`. -/
def Create (chunkSize : Int) (limit : Int) : Arena :=
  { chunkSize := chunkSize
    limit := limit
    cursor := 0
    chunkCursor := 0
    current := 0
    chunks := [List.replicate chunkSize.toNat 0] }

/-- The Go expression `unsafe.Pointer(&current[lo:hi][0])` evaluated on the
active chunk: the slice expression requires `0 ≤ lo ≤ hi ≤ len(current)`
and the index `[0]` requires the sliced view to be nonempty; otherwise the
Go runtime panics. -/
def view (a : Arena) (lo hi : Int) : Except Fault Ptr :=
  if 0 ≤ lo ∧ lo ≤ hi ∧ hi ≤ ((a.chunks.getD a.current []).length : Int) ∧ lo < hi then
    .ok { chunk := a.current, off := lo }
  else
    .error .outOfRange

/-- Go's `resize(n, next)`: the lock-guarded expansion step, entered by `alloc`
with the post-add cursor value `next` already stored in the cursor.  In
source order: the chunk-limit check (`a.limit != 0 && int(a.chunkCursor) >=
a.limit` panics), the compare-and-swap of the cursor from `next` to `n`
(whose failure makes Go re-enter `alloc`; sequentially it cannot fail, so
that arm is the `casRetry` marker), the selection of the next current chunk
(reuse `chunks[chunkCursor]` when `chunkCursor < len(chunks)-1`, else
append a fresh zeroed chunk when `len(chunks) < limit`, else keep the
current chunk), the increment of `chunkCursor`, the `next > chunkSize`
object-size check (panics), and the returned range `[next-n, next)` with
`next` reassigned to `n`. -/
def resize (a : Arena) (n : Int) (next : Int) : Arena × Except Fault Ptr :=
  if a.limit ≠ 0 ∧ a.limit ≤ a.chunkCursor then
    (a, .error .capacityExceeded)
  else if a.cursor ≠ next then
    (a, .error .casRetry)
  else
    let a1 := { a with cursor := n }
    let a2 :=
      if a1.chunkCursor < (a1.chunks.length : Int) - 1 then
        { a1 with current := a1.chunkCursor.toNat }
      else if (a1.chunks.length : Int) < a1.limit then
        { a1 with current := a1.chunks.length
                  chunks := a1.chunks ++ [List.replicate a1.chunkSize.toNat 0] }
      else a1
    let a3 := { a2 with chunkCursor := a2.chunkCursor + 1 }
    let next2 : Int := n
    if a3.chunkSize < next2 then
      (a3, .error .objectTooLarge)
    else
      (a3, view a3 (next2 - n) next2)

/-- Go's `alloc(n)`: the fast path.  Atomically add `n` to the cursor obtaining
`next`; when `next < chunkSize` (strict, as in the source) return the range
`[next-n, next)` of the active chunk; otherwise delegate to `resize` with
the cursor already holding `next`. -/
def alloc (a : Arena) (n : Int) : Arena × Except Fault Ptr :=
  let next := a.cursor + n
  let a1 := { a with cursor := next }
  if next < a1.chunkSize then
    (a1, view a1 (next - n) next)
  else
    resize a1 n next

/-- One iteration per unit of fuel of the `growSlice` loop
`for newLen >= capacity { capacity *= 2 }`; `none` means the fuel ran out
before the loop exited, so `(∀ fuel, growLoop fuel newLen c = none)` states
that the Go loop never terminates from capacity `c`. -/
def growLoop (fuel : Nat) (newLen : Int) (capacity : Int) : Option Int :=
  match fuel with
  | 0 => none
  | fuel + 1 =>
    if capacity ≤ newLen then growLoop fuel newLen (capacity * 2) else some capacity

/-- The byte wise assignment loop: write `data` into buffer `c` starting at
offset `off` (each step is `c[off] = b`). -/
def writeList (c : List Nat) (off : Nat) (data : List Nat) : List Nat :=
  match data with
  | [] => c
  | b :: bs => writeList (c.set off b) (off + 1) bs

/-- Write `data` through pointer `p`: the store lands in the owned chunk
`chunks[p.chunk]`, which the pointer aliases. -/
def writePtr (a : Arena) (p : Ptr) (data : List Nat) : Arena :=
  { a with chunks := a.chunks.set p.chunk (writeList (a.chunks.getD p.chunk []) p.off.toNat data) }

/-- Read `n` bytes through pointer `p` from the chunk it points into. -/
def readPtr (a : Arena) (p : Ptr) (n : Nat) : List Nat :=
  ((a.chunks.getD p.chunk []).drop p.off.toNat).take n

/-- Go's `New[T](arena)`: allocate `unsafe.Sizeof(T)` bytes and reinterpret them
as a `*T`; the object's bytes are whatever the chunk holds there (zero only
when the chunk is fresh or reset). -/
def New (a : Arena) (size : Int) : Arena × Except Fault Ptr :=
  alloc a size

/-- Go's `Value[T](arena, value)`: allocate `unsafe.Sizeof(T)` bytes and copy
the byte image `v` of `value` into them. -/
def Value (a : Arena) (v : List Nat) : Arena × Except Fault Ptr :=
  match alloc a (v.length : Int) with
  | (a1, .ok p) => (writePtr a1 p v, .ok p)
  | (a1, .error e) => (a1, .error e)

/-- Go's `String(arena, value)`: allocate `len(value)` bytes, copy the string's
bytes into them, and return a string view over that range (here: the
pointer; the view's content is `readPtr` at it). -/
def String (a : Arena) (value : List Nat) : Arena × Except Fault Ptr :=
  match alloc a (value.length : Int) with
  | (a1, .ok p) => (writePtr a1 p value, .ok p)
  | (a1, .error e) => (a1, .error e)

/-- The zeroing pass `for i := range chunk { chunk[i] = 0 }` that `Reset`
applies to every owned chunk. -/
def zeroChunk (c : List Nat) : List Nat :=
  c.map (fun _ => 0)

/-- Go's `Reset()`: record the cursor as `before`, zero every byte of every
owned chunk in place, keep only the first (zeroed) chunk as the sole and
current chunk, rewind `chunkCursor` to 0, and compare-and-swap the cursor
from `before` to 0 — its failure (an allocation racing with the reset) is
the `resetRace` panic, unreachable sequentially. -/
def Reset (a : Arena) : Arena × Except Fault Unit :=
  let before := a.cursor
  let zeroed := a.chunks.map zeroChunk
  let a1 := { a with chunks := [zeroed.headD []], current := 0, chunkCursor := 0 }
  if a1.cursor = before then
    ({ a1 with cursor := 0 }, .ok ())
  else
    (a1, .error .resetRace)

/-- A Go slice value: the identity of its backing store (`Sum.inl` an
address outside the arena, `Sum.inr` a pointer into an arena chunk), its
elements, and its capacity.  Element values are tracked abstractly, one
entry per element of type `T`. -/
structure GoSlice where
  store : Sum Nat Ptr
  data : List Nat
  cap : Nat
deriving DecidableEq

/-- Go's `growSlice(arena, slice, elements)`: compute `newLen`, double the
capacity until it exceeds `newLen` (the fuelled `growLoop`; `none` when
that loop does not terminate within `fuel` steps), allocate
`sizeof(T) * capacity` bytes from the arena, copy the old elements and then
the new ones into the new backing store, and return a length-`newLen` view
of it.  `esz` is `unsafe.Sizeof(T)`. -/
def growSlice (fuel : Nat) (a : Arena) (slice : GoSlice) (elements : List Nat) (esz : Int) :
    Option (Arena × Except Fault GoSlice) :=
  let newLen := slice.data.length + elements.length
  match growLoop fuel (newLen : Int) (slice.cap : Int) with
  | none => none
  | some capacity =>
    match alloc a (esz * capacity) with
    | (a1, .ok p) =>
      some (a1, .ok { store := .inr p, data := slice.data ++ elements, cap := capacity.toNat })
    | (a1, .error e) => some (a1, .error e)

/-- Go's `Append(arena, slice, elements...)`: when the spare capacity covers the
new length, append in place (Go's builtin `append` on a slice with enough
capacity: same backing store, elements written after the old length) and
leave the arena untouched; otherwise delegate to `growSlice`. -/
def Append (fuel : Nat) (a : Arena) (slice : GoSlice) (elements : List Nat) (esz : Int) :
    Option (Arena × Except Fault GoSlice) :=
  if slice.data.length + elements.length ≤ slice.cap then
    some (a, .ok { slice with data := slice.data ++ elements })
  else
    growSlice fuel a slice elements esz

/-- The operations a client can run against one arena (each is the state
part of the corresponding function above; a faulting call keeps the
mutations it made before the panic, as a recovered Go panic does). -/
inductive Op where
  | allocOp (n : Int)
  | valueOp (v : List Nat)
  | stringOp (v : List Nat)
  | resetOp

/-- Apply one operation to the arena, keeping the post-state. -/
def applyOp (a : Arena) (op : Op) : Arena :=
  match op with
  | .allocOp n => (alloc a n).1
  | .valueOp v => (Value a v).1
  | .stringOp v => (String a v).1
  | .resetOp => (Reset a).1

/-- Run a sequence of operations from a state. -/
def runOps (a : Arena) (ops : List Op) : Arena :=
  ops.foldl applyOp a

/-- Run a sequence of allocations, collecting each call's result. -/
def allocSeq (a : Arena) (ns : List Int) : Arena × List (Except Fault Ptr) :=
  match ns with
  | [] => (a, [])
  | n :: rest =>
    let r := alloc a n
    let rs := allocSeq r.1 rest
    (rs.1, r.2 :: rs.2)

/-- The sum of the first `i` requested sizes: the byte offset at which the
`i`-th of a run of fast-path allocations starts. -/
def psum (ns : List Int) (i : Nat) : Int :=
  ((ns.take i).sum)

/-- Two half-open byte ranges `[o1, o1+n1)` and `[o2, o2+n2)` do not
overlap. -/
def rangesDisjoint (o1 n1 o2 n2 : Int) : Prop :=
  o1 + n1 ≤ o2 ∨ o2 + n2 ≤ o1

theorem alloc_fast (a : Arena) (n : Int) (h1 : 0 < n) (h2 : 0 ≤ a.cursor)
    (h3 : a.cursor + n < a.chunkSize)
    (h4 : ((a.chunks.getD a.current []).length : Int) = a.chunkSize) :
    alloc a n = ({ a with cursor := a.cursor + n }, .ok ⟨a.current, a.cursor⟩) := by
  rw [alloc]
  simp only
  rw [if_pos (show a.cursor + n < ({ a with cursor := a.cursor + n } : Arena).chunkSize from h3)]
  rw [view]
  rw [if_pos ?hc]
  case hc =>
    refine ⟨by omega, by omega, ?_, by omega⟩
    show (a.cursor + n) ≤ ((a.chunks.getD a.current []).length : Int)
    omega
  simp

/-- Claim C1 (code bug): the spec says that with limit 0 an expansion provisions a new chunkSize-byte chunk and appends it to the chunk list; the code's append guard `len(a.chunks) < a.limit` is false when `limit = 0`, so after `Create 4` (limit 0) and two 3-byte allocations the chunk count is still 1, and the rolled-over second allocation is served at offset 0 of the same single chunk, overlapping the first allocation's range. -/
theorem c1_limit_zero_never_appends :
    (alloc (alloc (Create 4 0) 3).1 3).1.chunks.length = 1 ∧
    (alloc (alloc (Create 4 0) 3).1 3).1.chunkCursor = 1 ∧
    (alloc (alloc (Create 4 0) 3).1 3).2 = .ok ⟨0, 0⟩ ∧
    (alloc (Create 4 0) 3).2 = .ok ⟨0, 0⟩ := by decide

/-- Claim C2, counterexample: an allocation whose post-add cursor value equals the chunk size does not succeed on the fast path — on a fresh arena with chunk size 100 and limit 2, a single 100-byte allocation enters the expansion protocol, appending a second chunk (chunk count 2, chunk cursor 1) and is served from chunk index 1, not chunk 1 without expansion as claimed. -/
theorem c2_boundary_counterexample :
    (alloc (Create 100 2) 100).1.chunks.length = 2 ∧
    (alloc (Create 100 2) 100).1.chunkCursor = 1 ∧
    (alloc (Create 100 2) 100).2 = .ok ⟨1, 0⟩ := by decide

/-- Claim C3, counterexample: on a limit-1 arena whose chunk accounting is exhausted, an oversized request (10 > chunkSize 4) faults CapacityExceeded rather than ObjectTooLarge — the limit check precedes the size check; and alloc(0) faults with the fast path's out-of-range runtime fault, not ObjectTooLarge. -/
theorem c3_fault_kind_counterexample :
    (alloc (alloc (alloc (Create 4 1) 3).1 3).1 10).2 = .error .capacityExceeded ∧
    (alloc (Create 4 0) 0).2 = .error .outOfRange := by decide

/-- Claim C3 (amended): a request of size n > chunkSize always faults, with ObjectTooLarge when the chunk-limit check passes (limit 0 or chunkCursor below the limit) and with CapacityExceeded when the limit was already reached; a request of size n ≤ 0 served by the fast path faults with the out-of-range runtime fault of `&chunk[lo:hi][0]`. -/
theorem c3_invalid_size_faults (a : Arena) (n : Int) :
    (a.chunkSize < n → 0 ≤ a.cursor →
      (alloc a n).2 = .error (if a.limit ≠ 0 ∧ a.limit ≤ a.chunkCursor
        then Fault.capacityExceeded else Fault.objectTooLarge)) ∧
    (n ≤ 0 → a.cursor + n < a.chunkSize →
      (alloc a n).2 = .error .outOfRange) := by
  constructor
  · intro h1 h2
    by_cases hlim : a.limit ≠ 0 ∧ a.limit ≤ a.chunkCursor
    · rw [if_pos hlim]
      simp only [alloc, resize]
      rw [if_neg (show ¬ (a.cursor + n < ({ a with cursor := a.cursor + n } : Arena).chunkSize) from by
        show ¬ (a.cursor + n < a.chunkSize); omega)]
      rw [if_pos (show ({ a with cursor := a.cursor + n } : Arena).limit ≠ 0 ∧
        ({ a with cursor := a.cursor + n } : Arena).limit ≤ ({ a with cursor := a.cursor + n } : Arena).chunkCursor from hlim)]
    · rw [if_neg hlim]
      simp only [alloc, resize]
      rw [if_neg (show ¬ (a.cursor + n < ({ a with cursor := a.cursor + n } : Arena).chunkSize) from by
        show ¬ (a.cursor + n < a.chunkSize); omega)]
      rw [if_neg (show ¬ (({ a with cursor := a.cursor + n } : Arena).limit ≠ 0 ∧
        ({ a with cursor := a.cursor + n } : Arena).limit ≤ ({ a with cursor := a.cursor + n } : Arena).chunkCursor) from hlim)]
      rw [if_neg (show ¬ (({ a with cursor := a.cursor + n } : Arena).cursor ≠ a.cursor + n) from by simp)]
      split
      · rfl
      · split <;> rfl
  · intro h1 h2
    simp only [alloc, view]
    rw [if_pos (show a.cursor + n < ({ a with cursor := a.cursor + n } : Arena).chunkSize from h2)]
    rw [if_neg (by omega)]

/-- Claim C2 (amended): for every allocation of size n with 0 < n whose post-add cursor value end = cursor + n satisfies end < chunkSize strictly, alloc succeeds on the lock-free fast path, returning the range [end-n, end) of the active chunk (pointer at the old cursor) and changing nothing in the state but the cursor. -/
theorem c2_fastpath_strict (a : Arena) (n : Int) (h1 : 0 < n) (h2 : 0 ≤ a.cursor)
    (h3 : a.cursor + n < a.chunkSize)
    (h4 : ((a.chunks.getD a.current []).length : Int) = a.chunkSize) :
    alloc a n = ({ a with cursor := a.cursor + n }, .ok ⟨a.current, a.cursor⟩) :=
  alloc_fast a n h1 h2 h3 h4

/-- Witness for the amended claim C2: a 50-byte allocation on a fresh 100-byte arena stays on the fast path. -/
theorem c2_fastpath_strict_witness :
    alloc (Create 100 0) 50 = ({ Create 100 0 with cursor := 50 }, .ok ⟨0, 0⟩) :=
  c2_fastpath_strict (Create 100 0) 50 (by decide) (by decide) (by decide) (by decide)

/-- Witness for the amended claim C3: an 10-byte request on a fresh limit-0 arena of chunk size 4 faults ObjectTooLarge, and a 0-byte request faults out-of-range. -/
theorem c3_invalid_size_faults_witness :
    (alloc (Create 4 0) 10).2 = .error .objectTooLarge ∧
    (alloc (Create 4 0) 0).2 = .error .outOfRange :=
  ⟨(c3_invalid_size_faults (Create 4 0) 10).1 (by decide) (by decide),
   (c3_invalid_size_faults (Create 4 0) 0).2 (by decide) (by decide)⟩

/-- Claim C4: on an arena with limit L > 0 whose accounting has consumed L chunks (chunkCursor = L) and whose chunk list holds exactly L chunks, any allocation that overflows the active chunk faults CapacityExceeded, and the chunk list is unchanged — the chunk count at the moment of the fault is still exactly L; the failed expansion appends no chunk. -/
theorem c4_capacity_exceeded_at_limit (a : Arena) (n : Int) (h1 : 0 < a.limit)
    (h2 : a.chunkCursor = a.limit) (h3 : (a.chunks.length : Int) = a.limit)
    (h4 : a.chunkSize ≤ a.cursor + n) :
    (alloc a n).2 = .error .capacityExceeded ∧
    (alloc a n).1.chunks = a.chunks ∧
    ((alloc a n).1.chunks.length : Int) = a.limit := by
  have key : alloc a n = ({ a with cursor := a.cursor + n }, .error .capacityExceeded) := by
    simp only [alloc, resize]
    rw [if_neg (show ¬ (a.cursor + n < ({ a with cursor := a.cursor + n } : Arena).chunkSize) from by
      show ¬ (a.cursor + n < a.chunkSize); omega)]
    rw [if_pos (show ({ a with cursor := a.cursor + n } : Arena).limit ≠ 0 ∧
      ({ a with cursor := a.cursor + n } : Arena).limit ≤ ({ a with cursor := a.cursor + n } : Arena).chunkCursor from
      ⟨show a.limit ≠ 0 from by omega, show a.limit ≤ a.chunkCursor from by omega⟩)]
  rw [key]
  exact ⟨rfl, rfl, h3⟩

/-- Witness for claim C4 at L = 2, chunk size 4: two chunk-filling allocations from Create reach the limit state, and the next allocation faults CapacityExceeded with the chunk count still 2. -/
theorem c4_capacity_exceeded_at_limit_witness :
    (alloc (allocSeq (Create 4 2) [4, 4]).1 4).2 = .error .capacityExceeded ∧
    (alloc (allocSeq (Create 4 2) [4, 4]).1 4).1.chunks = (allocSeq (Create 4 2) [4, 4]).1.chunks ∧
    ((alloc (allocSeq (Create 4 2) [4, 4]).1 4).1.chunks.length : Int) = (allocSeq (Create 4 2) [4, 4]).1.limit :=
  c4_capacity_exceeded_at_limit (allocSeq (Create 4 2) [4, 4]).1 4 (by decide) (by decide) (by decide) (by decide)

theorem growLoop_exit (newLen : Int) (k : Nat) :
    ∀ capacity : Int, newLen < capacity * 2 ^ k → (∀ j, j < k → capacity * 2 ^ j ≤ newLen) →
    growLoop (k + 1) newLen capacity = some (capacity * 2 ^ k) := by
  induction k with
  | zero =>
    intro capacity hk _
    rw [growLoop]
    rw [if_neg (by simp only [pow_zero, mul_one] at hk; omega)]
    simp
  | succ k ih =>
    intro capacity hk hmin
    rw [growLoop]
    rw [if_pos (by have h0 := hmin 0 (by omega); simpa using h0)]
    have h1 : newLen < capacity * 2 * 2 ^ k := by
      rw [pow_succ] at hk; linarith [hk]
    have h2 : ∀ j, j < k → capacity * 2 * 2 ^ j ≤ newLen := by
      intro j hj
      have := hmin (j + 1) (by omega)
      rw [pow_succ] at this; linarith [this]
    have := ih (capacity * 2) h1 h2
    rw [this]
    congr 1
    rw [pow_succ]; ring

theorem growLoop_zero_none (newLen : Int) (h : 0 ≤ newLen) :
    ∀ fuel, growLoop fuel newLen 0 = none := by
  intro fuel
  induction fuel with
  | zero => rfl
  | succ fuel ih =>
    rw [growLoop, if_pos h]
    simpa using ih

/-- Claim C6: when the capacity-doubling loop of growSlice starts from a positive capacity it terminates — with fuel k + 1 for the least k — yielding capacity * 2 ^ k, the smallest doubling of the starting capacity that strictly exceeds the required new length; when the starting capacity is zero and the required length is nonnegative, the loop does not terminate: every fuel bound is exhausted. -/
theorem c6_growloop_termination (capacity newLen : Int) :
    (0 < capacity →
      ∃ k : Nat, growLoop (k + 1) newLen capacity = some (capacity * 2 ^ k) ∧
        newLen < capacity * 2 ^ k ∧ ∀ j, j < k → capacity * 2 ^ j ≤ newLen) ∧
    (0 ≤ newLen → ∀ fuel, growLoop fuel newLen 0 = none) := by
  constructor
  · intro hpos
    have hex : ∃ k : Nat, newLen < capacity * 2 ^ k := by
      refine ⟨newLen.toNat, ?_⟩
      have h2 : (newLen.toNat : Int) < 2 ^ newLen.toNat := by
        exact_mod_cast Nat.lt_two_pow newLen.toNat
      have h3 : (2 : Int) ^ newLen.toNat ≤ capacity * 2 ^ newLen.toNat := by
        have : (0 : Int) < 2 ^ newLen.toNat := by positivity
        nlinarith
      have h4 : newLen ≤ (newLen.toNat : Int) := Int.self_le_toNat newLen
      omega
    classical
    let k := Nat.find hex
    refine ⟨k, ?_, Nat.find_spec hex, ?_⟩
    · exact growLoop_exit newLen k capacity (Nat.find_spec hex)
        (fun j hj => by have := Nat.find_min hex hj; omega)
    · intro j hj
      have := Nat.find_min hex hj
      omega
  · exact growLoop_zero_none newLen

/-- Witness for claim C6 at capacity 3 and required length 5, and at capacity 0. -/
theorem c6_growloop_termination_witness :
    (∃ k : Nat, growLoop (k + 1) 5 3 = some (3 * 2 ^ k) ∧
      (5 : Int) < 3 * 2 ^ k ∧ ∀ j, j < k → (3 : Int) * 2 ^ j ≤ 5) ∧
    (∀ fuel, growLoop fuel 5 0 = none) :=
  ⟨(c6_growloop_termination 3 5).1 (by decide), (c6_growloop_termination 3 5).2 (by decide)⟩

theorem psum_zero (ns : List Int) : psum ns 0 = 0 := rfl

theorem psum_succ (ns : List Int) (i : Nat) (h : i < ns.length) :
    psum ns (i + 1) = psum ns i + ns.getD i 0 := by
  unfold psum
  rw [List.take_succ, List.sum_append, List.getElem?_eq_getElem h, List.getD_eq_getElem _ _ h]
  simp

theorem psum_length (ns : List Int) : psum ns ns.length = ns.sum := by
  simp [psum]

theorem psum_mono (ns : List Int) (hpos : ∀ n ∈ ns, 0 < n) :
    ∀ i j, i ≤ j → j ≤ ns.length → psum ns i ≤ psum ns j := by
  intro i j
  induction j with
  | zero =>
    intro hij _
    have : i = 0 := by omega
    subst this
    exact le_refl _
  | succ j ih =>
    intro hij hj
    by_cases hij2 : i ≤ j
    · have h1 := ih hij2 (by omega)
      have h2 : psum ns (j + 1) = psum ns j + ns.getD j 0 := psum_succ ns j (by omega)
      have h3 : 0 < ns.getD j 0 := by
        have hm : ns.getD j 0 ∈ ns := by
          rw [List.getD_eq_getElem _ _ (show j < ns.length by omega)]
          exact List.getElem_mem _
        exact hpos _ hm
      omega
    · have : i = j + 1 := by omega
      subst this
      exact le_refl _

theorem psum_nonneg (ns : List Int) (hpos : ∀ n ∈ ns, 0 < n) (i : Nat) :
    0 ≤ psum ns i := by
  have := psum_mono ns hpos 0 (min i ns.length) (by omega) (by omega)
  have heq : psum ns (min i ns.length) = psum ns i := by
    by_cases h : i ≤ ns.length
    · rw [min_eq_left h]
    · rw [min_eq_right (by omega)]
      unfold psum
      rw [List.take_length, List.take_of_length_le (by omega)]
  rw [psum_zero] at this
  omega

theorem allocSeq_get (ns : List Int) : ∀ (a : Arena),
    (∀ n ∈ ns, 0 < n) → 0 ≤ a.cursor → a.cursor + ns.sum < a.chunkSize →
    ((a.chunks.getD a.current []).length : Int) = a.chunkSize →
    ∀ i, i < ns.length →
      (allocSeq a ns).2[i]? = some (.ok ⟨a.current, a.cursor + psum ns i⟩) := by
  induction ns with
  | nil =>
    intro a _ _ _ _ i hi
    simp at hi
  | cons n rest ih =>
    intro a hpos hc hsum hlen i hi
    have hrest : 0 ≤ rest.sum :=
      List.sum_nonneg (fun x hx => le_of_lt (hpos x (List.mem_cons_of_mem _ hx)))
    have hn : 0 < n := hpos n (List.mem_cons_self _ _)
    rw [List.sum_cons] at hsum
    have hfast := alloc_fast a n hn hc (by omega) hlen
    rw [allocSeq, hfast]
    match i with
    | 0 =>
      simp [psum]
    | i + 1 =>
      simp only [List.getElem?_cons_succ]
      have := ih ({ a with cursor := a.cursor + n })
        (fun x hx => hpos x (List.mem_cons_of_mem _ hx))
        (show (0 : Int) ≤ a.cursor + n from by omega)
        (show a.cursor + n + rest.sum < a.chunkSize from by omega)
        hlen i (by simpa using hi)
      rw [this]
      congr 3
      show a.cursor + n + psum rest i = a.cursor + psum (n :: rest) (i + 1)
      have : psum (n :: rest) (i + 1) = n + psum rest i := by
        simp [psum, List.take_succ_cons]
      omega

/-- Claim C8: for every list of request sizes, all positive, whose total stays below the chunk size, successive allocations from a fresh arena are all served on the active chunk at consecutive partial-sum offsets; every returned range lies within [0, chunkSize) and the ranges of any two distinct allocations are pairwise disjoint. -/
theorem c8_ranges_disjoint_in_bounds (cs : Int) (ns : List Int) (hpos : ∀ n ∈ ns, 0 < n)
    (hsum : ns.sum < cs) :
    ∀ i, i < ns.length →
      ((allocSeq (Create cs 0) ns).2[i]? = some (.ok ⟨0, psum ns i⟩) ∧
       0 ≤ psum ns i ∧ psum ns i + ns.getD i 0 ≤ cs ∧
       ∀ j, i < j → j < ns.length →
         rangesDisjoint (psum ns i) (ns.getD i 0) (psum ns j) (ns.getD j 0)) := by
  intro i hi
  have hsum0 : 0 ≤ ns.sum := List.sum_nonneg (fun x hx => le_of_lt (hpos x hx))
  have hcs : 0 < cs := by omega
  have hget := allocSeq_get ns (Create cs 0) hpos (by exact le_refl 0)
    (show (Create cs 0).cursor + ns.sum < (Create cs 0).chunkSize from by
      show (0 : Int) + ns.sum < cs; omega)
    (show (((Create cs 0).chunks.getD (Create cs 0).current []).length : Int) = (Create cs 0).chunkSize from by
      show ((List.replicate cs.toNat 0).length : Int) = cs
      rw [List.length_replicate]
      omega)
    i hi
  refine ⟨?_, psum_nonneg ns hpos i, ?_, ?_⟩
  · rw [hget]
    simp [Create]
  · have h1 : psum ns (i + 1) = psum ns i + ns.getD i 0 := psum_succ ns i hi
    have h2 : psum ns (i + 1) ≤ psum ns ns.length :=
      psum_mono ns hpos (i + 1) ns.length (by omega) (le_refl _)
    rw [psum_length] at h2
    omega
  · intro j hij hj
    have h1 : psum ns (i + 1) = psum ns i + ns.getD i 0 := psum_succ ns i hi
    have h2 : psum ns (i + 1) ≤ psum ns j :=
      psum_mono ns hpos (i + 1) j (by omega) (by omega)
    exact Or.inl (show psum ns i + ns.getD i 0 ≤ psum ns j by omega)

/-- Witness for claim C8 with chunk size 10 and sizes [3, 4]. -/
theorem c8_ranges_disjoint_in_bounds_witness :
    ((allocSeq (Create 10 0) [3, 4]).2[0]? = some (.ok ⟨0, psum [3, 4] 0⟩) ∧
     0 ≤ psum [3, 4] 0 ∧ psum [3, 4] 0 + ([3, 4] : List Int).getD 0 0 ≤ 10 ∧
     ∀ j, 0 < j → j < ([3, 4] : List Int).length →
       rangesDisjoint (psum [3, 4] 0) (([3, 4] : List Int).getD 0 0)
         (psum [3, 4] j) (([3, 4] : List Int).getD j 0)) :=
  c8_ranges_disjoint_in_bounds 10 [3, 4] (by decide) (by decide) 0 (by decide)

theorem writeList_length (data : List Nat) : ∀ (c : List Nat) (off : Nat),
    (writeList c off data).length = c.length := by
  induction data with
  | nil => intro c off; rfl
  | cons b bs ih => intro c off; rw [writeList, ih, List.length_set]

theorem writeList_shift (data : List Nat) : ∀ (x : Nat) (xs : List Nat) (off : Nat),
    writeList (x :: xs) (off + 1) data = x :: writeList xs off data := by
  induction data with
  | nil => intro x xs off; rfl
  | cons b bs ih =>
    intro x xs off
    rw [writeList, writeList]
    exact ih x (xs.set off b) (off + 1)

theorem writeList_zero (data : List Nat) : ∀ (c : List Nat),
    data.length ≤ c.length →
    writeList c 0 data = data ++ c.drop data.length := by
  induction data with
  | nil => intro c _; rfl
  | cons b bs ih =>
    intro c h
    match c with
    | [] => simp at h
    | x :: xs =>
      rw [writeList]
      have : (x :: xs).set 0 b = b :: xs := rfl
      rw [this, writeList_shift, ih xs (by simpa using h)]
      rfl

theorem zeroChunk_eq (c : List Nat) : zeroChunk c = List.replicate c.length 0 := by
  induction c with
  | nil => rfl
  | cons x xs ih =>
    simp only [zeroChunk, List.map_cons, List.length_cons, List.replicate_succ] at ih ⊢
    rw [ih]

theorem alloc_boundary_fresh (cs : Int) (h : 0 < cs) :
    alloc (Create cs 0) cs = ({ Create cs 0 with cursor := cs, chunkCursor := 1 }, .ok ⟨0, 0⟩) := by
  rw [alloc]
  simp only [Create]
  rw [if_neg (show ¬ ((0 : Int) + cs < cs) from by omega)]
  rw [resize]
  rw [if_neg (show ¬ ((0 : Int) ≠ 0 ∧ (0 : Int) ≤ 0) from by simp)]
  rw [if_neg (show ¬ ((0 : Int) + cs ≠ 0 + cs) from by simp)]
  simp only
  rw [if_neg (show ¬ ((0 : Int) < (([List.replicate cs.toNat 0] : List (List Nat)).length : Int) - 1) from by simp)]
  rw [if_neg (show ¬ ((([List.replicate cs.toNat 0] : List (List Nat)).length : Int) < 0) from by simp)]
  rw [if_neg (show ¬ (cs < cs) from by omega)]
  rw [view]
  rw [if_pos ?hc]
  case hc =>
    refine ⟨by omega, by omega, ?_, by omega⟩
    show cs ≤ ((List.replicate cs.toNat 0).length : Int)
    rw [List.length_replicate]
    omega
  rw [show cs - cs = (0 : Int) from by omega]
  rfl

/-- Claim C9, counterexample: the string helper on the empty string faults — alloc(0) takes the fast path and indexes an empty slice, an out-of-range runtime fault — instead of returning an empty view as the claim's 'including the empty string' requires. -/
theorem c9_empty_string_counterexample : (String (Create 100 0) []).2 = .error .outOfRange := by decide

/-- Claim C9 (amended): for every nonempty byte string whose length is at most the chunk size, the string helper on a fresh arena succeeds with pointer (chunk 0, offset 0); the bytes read back through that pointer equal the input string, and the backing range lies inside a chunk owned by the arena (valid chunk index, range within the chunk's length). -/
theorem c9_string_copied_into_chunk (cs : Int) (v : List Nat) (h0 : v ≠ []) (h1 : (v.length : Int) ≤ cs) :
    (String (Create cs 0) v).2 = .ok ⟨0, 0⟩ ∧
    readPtr (String (Create cs 0) v).1 ⟨0, 0⟩ v.length = v ∧
    0 < (String (Create cs 0) v).1.chunks.length ∧
    (v.length : Int) ≤ (((String (Create cs 0) v).1.chunks.getD 0 []).length : Int) := by
  have hv : 0 < v.length := List.length_pos.mpr h0
  have hcs : 0 < cs := by omega
  have htn : (cs.toNat : Int) = cs := Int.toNat_of_nonneg (by omega)
  obtain ⟨a1, ha, hch⟩ : ∃ a1 : Arena, alloc (Create cs 0) (v.length : Int) = (a1, .ok ⟨0, 0⟩)
      ∧ a1.chunks = [List.replicate cs.toNat 0] := by
    rcases lt_or_eq_of_le h1 with hlt | heq
    · refine ⟨{ Create cs 0 with cursor := 0 + (v.length : Int) }, ?_, rfl⟩
      exact alloc_fast (Create cs 0) (v.length : Int) (by exact_mod_cast hv) (le_refl 0)
        (show (0 : Int) + (v.length : Int) < cs from by omega)
        (show (((Create cs 0).chunks.getD (Create cs 0).current []).length : Int) = (Create cs 0).chunkSize from by
          show ((List.replicate cs.toNat 0).length : Int) = cs
          rw [List.length_replicate]; omega)
    · refine ⟨{ Create cs 0 with cursor := cs, chunkCursor := 1 }, ?_, rfl⟩
      rw [heq]
      exact alloc_boundary_fresh cs hcs
  have key : String (Create cs 0) v = (writePtr a1 ⟨0, 0⟩ v, .ok ⟨0, 0⟩) := by
    rw [String, ha]
  have hwl : v.length ≤ (List.replicate cs.toNat 0 : List Nat).length := by
    rw [List.length_replicate]; omega
  have hW : (writePtr a1 ⟨0, 0⟩ v).chunks
      = [v ++ (List.replicate cs.toNat 0 : List Nat).drop v.length] := by
    rw [writePtr]
    rw [hch]
    show ([List.replicate cs.toNat 0] : List (List Nat)).set 0
      (writeList (List.replicate cs.toNat 0) 0 v) = _
    rw [writeList_zero v _ hwl]
    rfl
  refine ⟨?_, ?_, ?_, ?_⟩
  · rw [key]
  · rw [key]
    show readPtr (writePtr a1 ⟨0, 0⟩ v) ⟨0, 0⟩ v.length = v
    rw [readPtr]
    rw [hW]
    show ((v ++ (List.replicate cs.toNat 0 : List Nat).drop v.length).drop 0).take v.length = v
    rw [List.drop_zero]
    exact List.take_left v _
  · rw [key]
    show 0 < (writePtr a1 ⟨0, 0⟩ v).chunks.length
    rw [hW]
    simp
  · rw [key]
    show (v.length : Int) ≤ (((writePtr a1 ⟨0, 0⟩ v).chunks.getD 0 []).length : Int)
    rw [hW]
    show (v.length : Int) ≤ ((v ++ (List.replicate cs.toNat 0 : List Nat).drop v.length).length : Int)
    rw [List.length_append]
    omega

/-- Witness for the amended claim C9 with the five-byte string of the spec's scenario on a 100-byte arena. -/
theorem c9_string_copied_into_chunk_witness :
    (String (Create 100 0) [104, 101, 108, 108, 111]).2 = .ok ⟨0, 0⟩ ∧
    readPtr (String (Create 100 0) [104, 101, 108, 108, 111]).1 ⟨0, 0⟩
      ([104, 101, 108, 108, 111] : List Nat).length = [104, 101, 108, 108, 111] ∧
    0 < (String (Create 100 0) [104, 101, 108, 108, 111]).1.chunks.length ∧
    ((([104, 101, 108, 108, 111] : List Nat).length : Int)) ≤
      (((String (Create 100 0) [104, 101, 108, 108, 111]).1.chunks.getD 0 []).length : Int) :=
  c9_string_copied_into_chunk 100 [104, 101, 108, 108, 111] (by decide) (by decide)

/-- Claim C5: on a fresh arena, after writing a value and calling Reset, the reset reports success, the cursor is 0 and the chunk list holds exactly the one zeroed first chunk; the zeroing pass maps every chunk owned before the Reset to all-zero bytes; and the first allocation after the Reset is served at the identical address (chunk 0, offset 0) as the pre-reset object and reads back all zero bytes. -/
theorem c5_reset_roundtrip (cs : Int) (v : List Nat) (h1 : v ≠ []) (h2 : (v.length : Int) < cs) :
    (Value (Create cs 0) v).2 = .ok ⟨0, 0⟩ ∧
    (Reset (Value (Create cs 0) v).1).2 = .ok () ∧
    (Reset (Value (Create cs 0) v).1).1.cursor = 0 ∧
    (Reset (Value (Create cs 0) v).1).1.chunks = [List.replicate cs.toNat 0] ∧
    (∀ c ∈ (Value (Create cs 0) v).1.chunks.map zeroChunk, ∀ b ∈ c, b = 0) ∧
    (alloc (Reset (Value (Create cs 0) v).1).1 (v.length : Int)).2 = .ok ⟨0, 0⟩ ∧
    readPtr (alloc (Reset (Value (Create cs 0) v).1).1 (v.length : Int)).1 ⟨0, 0⟩ v.length
      = List.replicate v.length 0 := by
  have hv : 0 < v.length := List.length_pos.mpr h1
  have hcs : 0 < cs := by omega
  have hfast := alloc_fast (Create cs 0) (v.length : Int) (by exact_mod_cast hv) (le_refl 0)
    (show (0 : Int) + (v.length : Int) < cs from by omega)
    (show (((Create cs 0).chunks.getD (Create cs 0).current []).length : Int) = (Create cs 0).chunkSize from by
      show ((List.replicate cs.toNat 0).length : Int) = cs
      rw [List.length_replicate]; omega)
  have keyV : Value (Create cs 0) v
      = (writePtr { Create cs 0 with cursor := 0 + (v.length : Int) } ⟨0, 0⟩ v, .ok ⟨0, 0⟩) := by
    rw [Value, hfast]
    rfl
  have hZ : zeroChunk (writeList (List.replicate cs.toNat 0) 0 v) = List.replicate cs.toNat 0 := by
    rw [zeroChunk_eq, writeList_length, List.length_replicate]
  have keyR : Reset (writePtr { Create cs 0 with cursor := 0 + (v.length : Int) } ⟨0, 0⟩ v)
      = ({ chunkSize := cs, limit := 0, cursor := 0, chunkCursor := 0, current := 0,
           chunks := [List.replicate cs.toNat 0] }, .ok ()) := by
    simp only [Reset]
    rw [if_pos trivial]
    congr 1
    congr 1
    exact congrArg (fun l => [l])
      (show ((writePtr { Create cs 0 with cursor := 0 + (v.length : Int) } ⟨0, 0⟩ v).chunks.map
        zeroChunk).headD [] = List.replicate cs.toNat 0 from hZ)
  have hfast2 := alloc_fast
    { chunkSize := cs, limit := 0, cursor := 0, chunkCursor := 0, current := 0,
      chunks := [List.replicate cs.toNat 0] } (v.length : Int)
    (by exact_mod_cast hv) (le_refl 0)
    (show (0 : Int) + (v.length : Int) < cs from by omega)
    (show ((List.replicate cs.toNat 0).length : Int) = cs from by
      rw [List.length_replicate]; omega)
  refine ⟨?_, ?_, ?_, ?_, ?_, ?_, ?_⟩
  · simp only [keyV]
  · simp only [keyV, keyR]
  · simp only [keyV, keyR]
  · simp only [keyV, keyR]
  · simp only [keyV]
    show ∀ c ∈ ([writeList (List.replicate cs.toNat 0) 0 v] : List (List Nat)).map zeroChunk,
      ∀ b ∈ c, b = 0
    intro c hc b hb
    simp only [List.map_cons, List.map_nil, List.mem_singleton] at hc
    subst hc
    rw [zeroChunk_eq] at hb
    exact List.eq_of_mem_replicate hb
  · simp only [keyV, keyR, hfast2]
  · simp only [keyV, keyR, hfast2]
    show ((List.replicate cs.toNat 0 : List Nat).drop 0).take v.length = List.replicate v.length 0
    rw [List.drop_zero, List.take_replicate]
    congr 1
    omega

/-- Witness for claim C5 with chunk size 100 and a two-byte value. -/
theorem c5_reset_roundtrip_witness :
    (Value (Create 100 0) [42, 7]).2 = .ok ⟨0, 0⟩ ∧
    (Reset (Value (Create 100 0) [42, 7]).1).2 = .ok () ∧
    (Reset (Value (Create 100 0) [42, 7]).1).1.cursor = 0 ∧
    (Reset (Value (Create 100 0) [42, 7]).1).1.chunks = [List.replicate (100 : Int).toNat 0] ∧
    (∀ c ∈ (Value (Create 100 0) [42, 7]).1.chunks.map zeroChunk, ∀ b ∈ c, b = 0) ∧
    (alloc (Reset (Value (Create 100 0) [42, 7]).1).1 (([42, 7] : List Nat).length : Int)).2 = .ok ⟨0, 0⟩ ∧
    readPtr (alloc (Reset (Value (Create 100 0) [42, 7]).1).1 (([42, 7] : List Nat).length : Int)).1 ⟨0, 0⟩
      ([42, 7] : List Nat).length = List.replicate ([42, 7] : List Nat).length 0 :=
  c5_reset_roundtrip 100 [42, 7] (by decide) (by decide)

theorem view_ok (a : Arena) (lo hi : Int) (p : Ptr) (h : view a lo hi = .ok p) :
    p.chunk = a.current ∧ p.off = lo ∧ 0 ≤ lo ∧ lo < hi ∧
    hi ≤ ((a.chunks.getD a.current []).length : Int) := by
  rw [view] at h
  split at h
  · next hc =>
    simp only [Except.ok.injEq] at h
    subst h
    exact ⟨rfl, rfl, hc.1, hc.2.2.2, hc.2.2.1⟩
  · simp at h

theorem getD_length_pos (l : List (List Nat)) (i : Nat)
    (h : 0 < (l.getD i []).length) : i < l.length := by
  by_contra hc
  rw [List.getD_eq_default _ _ (by omega)] at h
  simp at h

theorem alloc_ok_chunk (a : Arena) (n : Int) (p : Ptr) (h : (alloc a n).2 = .ok p) :
    p.chunk < (alloc a n).1.chunks.length ∧ 0 ≤ p.off ∧
    p.off + n ≤ (((alloc a n).1.chunks.getD p.chunk []).length : Int) := by
  simp only [alloc, resize] at h ⊢
  split at h
  · next hfast =>
    rw [if_pos hfast]
    try simp only
    simp only at h
    obtain ⟨hc, ho, h0, hlh, hle⟩ := view_ok _ _ _ _ h
    simp only at hc ho h0 hlh hle
    refine ⟨?_, by omega, ?_⟩
    · rw [hc]
      exact getD_length_pos _ _ (by omega)
    · rw [hc]
      omega
  · next hfast =>
    rw [if_neg hfast]
    split at h
    · simp at h
    · next hlim =>
      rw [if_neg hlim]
      split at h
      · simp at h
      · next hcas =>
        rw [if_neg hcas]
        split at h
        · next hb1 =>
          rw [if_pos hb1]
          try simp only
          split at h
          · simp at h
          · next hsz =>
            rw [if_neg hsz]
            try simp only
            simp only at h
            obtain ⟨hc, ho, h0, hlh, hle⟩ := view_ok _ _ _ _ h
            simp only at hc ho h0 hlh hle
            refine ⟨?_, by omega, ?_⟩
            · rw [hc]
              exact getD_length_pos _ _ (by omega)
            · rw [hc]
              omega
        · next hb1 =>
          rw [if_neg hb1]
          try simp only
          split at h
          · next hb2 =>
            rw [if_pos hb2]
            try simp only
            split at h
            · simp at h
            · next hsz =>
              rw [if_neg hsz]
              try simp only
              simp only at h
              obtain ⟨hc, ho, h0, hlh, hle⟩ := view_ok _ _ _ _ h
              simp only at hc ho h0 hlh hle
              refine ⟨?_, by omega, ?_⟩
              · rw [hc]
                exact getD_length_pos _ _ (by omega)
              · rw [hc]
                omega
          · next hb2 =>
            rw [if_neg hb2]
            try simp only
            split at h
            · simp at h
            · next hsz =>
              rw [if_neg hsz]
              try simp only
              simp only at h
              obtain ⟨hc, ho, h0, hlh, hle⟩ := view_ok _ _ _ _ h
              simp only at hc ho h0 hlh hle
              refine ⟨?_, by omega, ?_⟩
              · rw [hc]
                exact getD_length_pos _ _ (by omega)
              · rw [hc]
                omega

/-- Claim C7 (amended): with sufficient spare capacity Append appends in place — the same backing store is returned, the arena is untouched, prior elements are unchanged at their indices and the new elements follow at the old length; with insufficient capacity, whenever growSlice returns successfully, the backing store has relocated to an arena pointer into an owned chunk, the prior elements are preserved at the same indices, the new elements start at the old length, and Append defers to growSlice. -/
theorem c7_append_inplace_or_relocate (fuel : Nat) (a : Arena) (s : GoSlice) (es : List Nat) (esz : Int) :
    (s.data.length + es.length ≤ s.cap →
      Append fuel a s es esz = some (a, .ok { s with data := s.data ++ es })) ∧
    (¬ (s.data.length + es.length ≤ s.cap) →
      ∀ a2 s2, growSlice fuel a s es esz = some (a2, .ok s2) →
        (∃ p : Ptr, s2.store = .inr p ∧ p.chunk < a2.chunks.length) ∧
        s2.data.take s.data.length = s.data ∧
        s2.data.drop s.data.length = es ∧
        Append fuel a s es esz = growSlice fuel a s es esz) := by
  constructor
  · intro hcap
    rw [Append, if_pos hcap]
  · intro hcap a2 s2 hg
    have happ : Append fuel a s es esz = growSlice fuel a s es esz := by
      rw [Append, if_neg hcap]
    rw [growSlice] at hg
    split at hg
    · simp at hg
    · next capacity hloop =>
      split at hg
      · next a1 p halloc =>
        simp only [Option.some.injEq, Prod.mk.injEq, Except.ok.injEq] at hg
        obtain ⟨ha1, hs2⟩ := hg
        subst ha1
        subst hs2
        refine ⟨⟨p, rfl, ?_⟩, List.take_left _ _, List.drop_left _ _, happ⟩
        have hb := alloc_ok_chunk a (esz * capacity) p (by rw [halloc])
        have : (alloc a (esz * capacity)).1 = a1 := by rw [halloc]
        rw [this] at hb
        exact hb.1
      · next a1 e halloc =>
        simp at hg

/-- Claim C7, counterexample: a slice with insufficient (nonzero) capacity does not always relocate into the arena — here the grown backing store of 8 bytes exceeds the chunk size 4, the arena allocation faults ObjectTooLarge, and Append returns that fault instead of a relocated slice. -/
theorem c7_relocation_counterexample :
    Append 10 (Create 4 0) ⟨Sum.inl 0, [1], 1⟩ [2, 3, 4, 5] 1
      = some (⟨4, 0, 8, 1, 0, [[0, 0, 0, 0]]⟩, .error .objectTooLarge) := by decide

/-- Witness for the amended claim C7: an in-place append with spare capacity, and a successful relocating append whose result is the arena-backed grown slice. -/
theorem c7_append_inplace_or_relocate_witness :
    (Append 5 (Create 10 0) ⟨Sum.inl 0, [1], 3⟩ [2] 1
      = some ((Create 10 0), .ok ⟨Sum.inl 0, [1, 2], 3⟩)) ∧
    ((∃ p : Ptr, (⟨Sum.inr ⟨0, 0⟩, [1, 2], 4⟩ : GoSlice).store = .inr p ∧
        p.chunk < ({ Create 10 0 with cursor := 4 } : Arena).chunks.length) ∧
      (⟨Sum.inr ⟨0, 0⟩, [1, 2], 4⟩ : GoSlice).data.take
          (⟨Sum.inl 0, [1], 1⟩ : GoSlice).data.length = (⟨Sum.inl 0, [1], 1⟩ : GoSlice).data ∧
      (⟨Sum.inr ⟨0, 0⟩, [1, 2], 4⟩ : GoSlice).data.drop
          (⟨Sum.inl 0, [1], 1⟩ : GoSlice).data.length = [2] ∧
      Append 5 (Create 10 0) ⟨Sum.inl 0, [1], 1⟩ [2] 1
        = growSlice 5 (Create 10 0) ⟨Sum.inl 0, [1], 1⟩ [2] 1) :=
  ⟨(c7_append_inplace_or_relocate 5 (Create 10 0) ⟨Sum.inl 0, [1], 3⟩ [2] 1).1 (by decide),
   (c7_append_inplace_or_relocate 5 (Create 10 0) ⟨Sum.inl 0, [1], 1⟩ [2] 1).2 (by decide)
     ({ Create 10 0 with cursor := 4 }) ⟨Sum.inr ⟨0, 0⟩, [1, 2], 4⟩ (by decide)⟩

theorem alloc_state_inv (a : Arena) (n : Int)
    (h1 : a.current + 1 = a.chunks.length)
    (h2 : (a.chunks.length : Int) ≤ a.chunkCursor + 1) :
    ((alloc a n).1.current + 1 = (alloc a n).1.chunks.length ∧
     (((alloc a n).1.chunks.length : Int) ≤ (alloc a n).1.chunkCursor + 1)) := by
  simp only [alloc, resize, apply_ite Prod.fst, ite_self]
  split
  · exact ⟨h1, h2⟩
  · split
    · exact ⟨h1, h2⟩
    · split
      · exact ⟨h1, h2⟩
      · split
        · next hb1 =>
          exfalso
          try simp only at hb1
          omega
        · split
          · next hb2 =>
            constructor
            · show a.chunks.length + 1 = (a.chunks ++ [List.replicate a.chunkSize.toNat 0]).length
              rw [List.length_append]
              simp
            · show ((a.chunks ++ [List.replicate a.chunkSize.toNat 0]).length : Int)
                ≤ a.chunkCursor + 1 + 1
              rw [List.length_append]
              push_cast
              simp only [List.length_singleton]
              omega
          · exact ⟨h1, show (a.chunks.length : Int) ≤ a.chunkCursor + 1 + 1 from by omega⟩

theorem writePtr_state (b : Arena) (p : Ptr) (v : List Nat) :
    (writePtr b p v).current = b.current ∧
    (writePtr b p v).chunks.length = b.chunks.length ∧
    (writePtr b p v).chunkCursor = b.chunkCursor := by
  refine ⟨rfl, ?_, rfl⟩
  show (b.chunks.set p.chunk (writeList (b.chunks.getD p.chunk []) p.off.toNat v)).length
    = b.chunks.length
  rw [List.length_set]

theorem value_state_inv (a : Arena) (v : List Nat)
    (h1 : a.current + 1 = a.chunks.length)
    (h2 : (a.chunks.length : Int) ≤ a.chunkCursor + 1) :
    ((Value a v).1.current + 1 = (Value a v).1.chunks.length ∧
     (((Value a v).1.chunks.length : Int) ≤ (Value a v).1.chunkCursor + 1)) := by
  have hA := alloc_state_inv a (v.length : Int) h1 h2
  rw [Value]
  split
  · next a1 p halloc =>
    rw [halloc] at hA
    simp only at hA ⊢
    have hw := writePtr_state a1 p v
    rw [hw.1, hw.2.1, hw.2.2]
    exact hA
  · next a1 e halloc =>
    rw [halloc] at hA
    simp only at hA ⊢
    exact hA

theorem string_state_inv (a : Arena) (v : List Nat)
    (h1 : a.current + 1 = a.chunks.length)
    (h2 : (a.chunks.length : Int) ≤ a.chunkCursor + 1) :
    ((String a v).1.current + 1 = (String a v).1.chunks.length ∧
     (((String a v).1.chunks.length : Int) ≤ (String a v).1.chunkCursor + 1)) := by
  have hA := alloc_state_inv a (v.length : Int) h1 h2
  rw [String]
  split
  · next a1 p halloc =>
    rw [halloc] at hA
    simp only at hA ⊢
    have hw := writePtr_state a1 p v
    rw [hw.1, hw.2.1, hw.2.2]
    exact hA
  · next a1 e halloc =>
    rw [halloc] at hA
    simp only at hA ⊢
    exact hA

theorem reset_state_inv (a : Arena) :
    ((Reset a).1.current + 1 = (Reset a).1.chunks.length ∧
     (((Reset a).1.chunks.length : Int) ≤ (Reset a).1.chunkCursor + 1)) := by
  simp only [Reset]
  rw [if_pos trivial]
  exact ⟨rfl, by simp⟩

theorem applyOp_inv (a : Arena) (op : Op)
    (h1 : a.current + 1 = a.chunks.length)
    (h2 : (a.chunks.length : Int) ≤ a.chunkCursor + 1) :
    ((applyOp a op).current + 1 = (applyOp a op).chunks.length ∧
     (((applyOp a op).chunks.length : Int) ≤ (applyOp a op).chunkCursor + 1)) := by
  cases op with
  | allocOp n => exact alloc_state_inv a n h1 h2
  | valueOp v => exact value_state_inv a v h1 h2
  | stringOp v => exact string_state_inv a v h1 h2
  | resetOp => exact reset_state_inv a

theorem runOps_inv (ops : List Op) : ∀ (a : Arena),
    a.current + 1 = a.chunks.length → (a.chunks.length : Int) ≤ a.chunkCursor + 1 →
    ((runOps a ops).current + 1 = (runOps a ops).chunks.length ∧
     (((runOps a ops).chunks.length : Int) ≤ (runOps a ops).chunkCursor + 1)) := by
  induction ops with
  | nil => exact fun a ha hb => ⟨ha, hb⟩
  | cons op rest ih =>
    intro a ha hb
    have hstep := applyOp_inv a op ha hb
    have : runOps a (op :: rest) = runOps (applyOp a op) rest := by
      simp [runOps]
    rw [this]
    exact ih (applyOp a op) hstep.1 hstep.2

/-- Claim C10: in every arena state reachable from Create by any sequence of allocations, value or string writes, and resets, the active chunk is the last element of the chunk list (current + 1 equals the chunk count) and the chunk index is at least the chunk count minus one; hence the condition guarding the trailing-slot reuse branch of resize, chunkCursor < len(chunks) - 1, never holds and that branch is never executed. -/
theorem c10_reuse_branch_unreachable (cs L : Int) (ops : List Op) :
    (runOps (Create cs L) ops).current + 1 = (runOps (Create cs L) ops).chunks.length ∧
    ((runOps (Create cs L) ops).chunks.length : Int) ≤ (runOps (Create cs L) ops).chunkCursor + 1 ∧
    ¬ ((runOps (Create cs L) ops).chunkCursor
        < ((runOps (Create cs L) ops).chunks.length : Int) - 1) := by
  have h := runOps_inv ops (Create cs L) rfl (by simp [Create])
  exact ⟨h.1, h.2, by omega⟩

end arena
